import Mathlib

/-!
# Verification of the storefront order-assembly and stock-reconciliation engine

Shallow embedding of the core logic of `src/App.tsx` / `src/types.ts`:
the catalog data model, the pricing engine (`cartSubtotal` / `cartTotal`),
the cart engine (`addToCart`), the checkout orchestrator
(`handleCheckoutSubmit` with its stock-update loop), the product save path
(`handleSaveProduct` with its variant reconciliation), and the sales
analytics (`filteredSales` / `salesInsights`).

Modelling conventions:
* JS numbers that hold money are embedded as `ℚ`; integer-valued counters
  (cart quantities) as `ℕ`; stock quantities as `ℤ` (the source clamps them
  with `Math.max(0, …)`, which is the identity on naturals but is kept as
  written).
* The TS runtime allows `product.stock` to be `undefined` (the source guards
  every access with `?.` or truthiness checks), so `stock` is embedded as
  `Option (List StockVariant)`.
* `Date` values are external to the core; the analytics filter zeroes the
  time of day and compares calendar days, so a timestamp is embedded as a
  calendar day plus a time-of-day component that the filter ignores.
-/

/-- `StockVariant` of `src/types.ts`: one (color, size) combination with its
own stock count. -/
structure StockVariant where
  color : String
  size : String
  quantity : ℤ
deriving DecidableEq, Repr

/-- `Product` of `src/types.ts` (with the `isMulticolor` field the app adds).
`stock` is optional because the TS runtime may leave it `undefined` — every
source access is guarded (`product.stock?.…`, `if (product && product.stock)`). -/
structure Product where
  id : ℕ
  name : String
  price : ℚ
  promoPrice : ℚ
  category : String
  colors : List String
  sizes : List String
  stock : Option (List StockVariant)
  icon : String
  image : Option String
  description : String
  visible : Bool
  isPromotion : Bool
  isMulticolor : Bool
deriving DecidableEq, Repr

/-- `CartItem` of `src/types.ts`: a product snapshot plus the chosen variant
and a quantity. -/
structure CartItem extends Product where
  selectedColor : String
  selectedSize : String
  quantity : ℕ
deriving DecidableEq, Repr

/-- `Coupon` of `src/types.ts`. -/
structure Coupon where
  code : String
  discount : ℚ
deriving DecidableEq, Repr

/-- `CheckoutData` of `src/types.ts`. -/
structure CheckoutData where
  name : String
  address : String
  payment : String
deriving DecidableEq, Repr

/-- A calendar date (what remains of a JS `Date` once `setHours(0,0,0,0)`
has zeroed the time of day). -/
structure CalDate where
  year : ℕ
  month : ℕ
  day : ℕ
deriving DecidableEq, Repr

/-- A point in time: the calendar day plus the time of day (milliseconds),
which the sales filter discards. -/
structure Timestamp where
  day : CalDate
  msOfDay : ℕ
deriving DecidableEq, Repr

/-- A `sales` row (an Order of the spec): snake_case fields exactly as the
source reads them back from the order repository. -/
structure Sale where
  customer_name : String
  customer_address : String
  payment_method : String
  total : ℚ
  items : List CartItem
  created_at : Timestamp
deriving DecidableEq, Repr

/-! ## Pricing engine (`cartSubtotal` / `cartTotal`, App.tsx lines 207–223) -/

/-- The per-line effective price, as computed inside both reducers:
`(item.isPromotion && item.promoPrice > 0) ? item.promoPrice : item.price`. -/
def effectivePrice (item : CartItem) : ℚ :=
  if item.isPromotion = true ∧ 0 < item.promoPrice then item.promoPrice else item.price

/-- `cartSubtotal` (App.tsx 218–223): `cart.reduce((acc, item) => acc + price*qty, 0)`. -/
def cartSubtotal (cart : List CartItem) : ℚ :=
  cart.foldl (fun acc item => acc + effectivePrice item * item.quantity) 0

/-- `cartTotal` (App.tsx 207–216): the subtotal, discounted multiplicatively
when a coupon is applied. -/
def cartTotal (cart : List CartItem) (appliedCoupon : Option Coupon) : ℚ :=
  let subtotal := cartSubtotal cart
  match appliedCoupon with
  | some c => subtotal * (1 - c.discount / 100)
  | none => subtotal

/-- A throwaway product used to build concrete carts in examples. -/
def sampleProduct : Product :=
  { id := 1, name := "P", price := 100, promoPrice := 0, category := "conjuntos"
    colors := ["Preto"], sizes := ["M"]
    stock := some [{ color := "Preto", size := "M", quantity := 5 }]
    icon := "x", image := none, description := "", visible := true
    isPromotion := false, isMulticolor := false }

/-- A cart line on `sampleProduct` with quantity 2. -/
def sampleLine : CartItem :=
  { toProduct := sampleProduct, selectedColor := "Preto", selectedSize := "M", quantity := 2 }

/-- C3: the effective price of a line is `promoPrice` exactly when the
promotion flag is set and `promoPrice > 0`; the total with no coupon equals
the subtotal; with a coupon of discount `d` the total is the subtotal times
`(1 − d/100)`, applied to the whole subtotal; and the concrete cart of one
product of price 100, no promotion, quantity 2 with a 10% coupon yields
subtotal 200 and total 180. -/
theorem pricing_subtotal_coupon_total :
    (∀ item : CartItem, effectivePrice item =
      if item.isPromotion = true ∧ 0 < item.promoPrice then item.promoPrice else item.price)
    ∧ (∀ cart : List CartItem, cartTotal cart none = cartSubtotal cart)
    ∧ (∀ (cart : List CartItem) (c : Coupon),
        cartTotal cart (some c) = cartSubtotal cart * (1 - c.discount / 100))
    ∧ cartSubtotal [sampleLine] = 200
    ∧ cartTotal [sampleLine] (some { code := "SAVE10", discount := 10 }) = 180 := by
  refine ⟨fun item => rfl, fun cart => rfl, fun cart c => rfl, ?_, ?_⟩ <;>
    norm_num [cartTotal, cartSubtotal, effectivePrice, sampleLine, sampleProduct]

/-! ## Cart engine (`addToCart`, App.tsx lines 304–323) -/

/-- The exact (productId, color, size) key test the source repeats in
`addToCart`: `i.id === product.id && i.selectedColor === color &&
i.selectedSize === size`. -/
def cartKey (pid : ℕ) (color size : String) (i : CartItem) : Bool :=
  i.id == pid && i.selectedColor == color && i.selectedSize == size

/-- `product.stock?.find(s => s.color === color && s.size === size)?.quantity || 0`. -/
def variantStockQty (product : Product) (color size : String) : ℤ :=
  match product.stock with
  | none => 0
  | some l =>
    match l.find? (fun s => s.color == color && s.size == size) with
    | some v => v.quantity
    | none => 0

/-- `cart.find(i => i.id === product.id && …)?.quantity || 0`. -/
def currentInCartQty (cart : List CartItem) (pid : ℕ) (color size : String) : ℕ :=
  match cart.find? (cartKey pid color size) with
  | some i => i.quantity
  | none => 0

/-- The setCart updater's increment branch: `prev.map(i => i === existing ?
{ ...i, quantity: i.quantity + 1 } : i)` where `existing` is the first line
matching the key — reference equality singles out exactly that first match. -/
def bumpFirst (cart : List CartItem) (pid : ℕ) (color size : String) : List CartItem :=
  match cart with
  | [] => []
  | i :: rest =>
    if cartKey pid color size i then { i with quantity := i.quantity + 1 } :: rest
    else i :: bumpFirst rest pid color size

/-- The new line the append branch builds:
`{ ...product, selectedColor: color, selectedSize: size, quantity: 1 }`. -/
def newCartLine (product : Product) (color size : String) : CartItem :=
  { toProduct := product, selectedColor := color, selectedSize := size, quantity := 1 }

/-- Outcome of `addToCart`: either the out-of-stock alert (cart untouched) or
the new cart contents. -/
inductive AddToCartResult where
  | outOfStock
  | added (newCart : List CartItem)
deriving DecidableEq, Repr

/-- `addToCart` (App.tsx 304–323). -/
def addToCart (cart : List CartItem) (product : Product) (color size : String) :
    AddToCartResult :=
  let variantStock := variantStockQty product color size
  let currentInCart := currentInCartQty cart product.id color size
  if (currentInCart : ℤ) + 1 > variantStock then .outOfStock
  else .added (
    match cart.find? (cartKey product.id color size) with
    | some _ => bumpFirst cart product.id color size
    | none => cart ++ [newCartLine product color size])

/-- `bumpFirst` rewrites exactly the first line matching the key, leaving every
other line in place. -/
theorem bumpFirst_decomposition (cart : List CartItem) (pid : ℕ) (color size : String)
    (i : CartItem) (h : cart.find? (cartKey pid color size) = some i) :
    ∃ pre post, cart = pre ++ i :: post ∧ (∀ j ∈ pre, cartKey pid color size j = false) ∧
      bumpFirst cart pid color size = pre ++ { i with quantity := i.quantity + 1 } :: post := by
  induction cart with
  | nil => simp at h
  | cons x rest ih =>
    by_cases hx : cartKey pid color size x
    · rw [List.find?_cons_of_pos _ hx] at h
      obtain rfl : x = i := by injection h
      exact ⟨[], rest, by simp [bumpFirst, hx]⟩
    · rw [List.find?_cons_of_neg _ hx] at h
      obtain ⟨pre, post, hcart, hpre, hbump⟩ := ih h
      refine ⟨x :: pre, post, by simp [hcart], ?_, ?_⟩
      · intro j hj
        rcases List.mem_cons.mp hj with rfl | hj
        · exact Bool.eq_false_iff.mpr hx
        · exact hpre j hj
      · simp [bumpFirst, hx, hbump]

/-- C2: `addToCart` computes the in-cart quantity and the ledger quantity for
the exact (productId, color, size) key; when `currentInCart + 1` exceeds the
available quantity it fails out-of-stock (leaving the cart unchanged),
otherwise it increments exactly the first matching line, or appends a fresh
line of quantity 1 when no line matches; and on a variant of quantity 0 it
always fails, whatever the cart holds. -/
theorem addToCart_stock_rules (cart : List CartItem) (product : Product)
    (color size : String) :
    ((currentInCartQty cart product.id color size : ℤ) + 1 >
        variantStockQty product color size →
      addToCart cart product color size = .outOfStock)
    ∧ ((currentInCartQty cart product.id color size : ℤ) + 1 ≤
        variantStockQty product color size →
      (∀ i, cart.find? (cartKey product.id color size) = some i →
        ∃ pre post, cart = pre ++ i :: post
          ∧ (∀ j ∈ pre, cartKey product.id color size j = false)
          ∧ addToCart cart product color size =
              .added (pre ++ { i with quantity := i.quantity + 1 } :: post))
      ∧ (cart.find? (cartKey product.id color size) = none →
        addToCart cart product color size =
          .added (cart ++ [newCartLine product color size])))
    ∧ (variantStockQty product color size = 0 →
      addToCart cart product color size = .outOfStock) := by
  refine ⟨fun hgt => ?_, fun hle => ⟨fun i hfind => ?_, fun hnone => ?_⟩, fun hzero => ?_⟩
  · simp only [addToCart, if_pos hgt]
  · obtain ⟨pre, post, hcart, hpre, hbump⟩ :=
      bumpFirst_decomposition cart product.id color size i hfind
    exact ⟨pre, post, hcart, hpre, by simp [addToCart, not_lt.mpr hle, hfind, hbump]⟩
  · simp [addToCart, not_lt.mpr hle, hnone]
  · have : (currentInCartQty cart product.id color size : ℤ) + 1 >
        variantStockQty product color size := by
      rw [hzero]; positivity
    simp only [addToCart, if_pos this]

/-- A product whose only variant (Bordeaux, M) has quantity 0, as in the
spec's out-of-stock scenario. -/
def emptyVariantProduct : Product :=
  { sampleProduct with
    id := 2
    stock := some [{ color := "Bordeaux", size := "M", quantity := 0 }] }

/-- Closed witness for C2: on `sampleProduct`, whose (Preto, M) variant holds
5 units, adding to an empty cart succeeds with a fresh quantity-1 line, and
the Bordeaux/M variant of quantity 0 of a second product always rejects. -/
theorem addToCart_stock_rules_witness :
    addToCart [] sampleProduct "Preto" "M" = .added [newCartLine sampleProduct "Preto" "M"]
    ∧ addToCart [sampleLine] emptyVariantProduct "Bordeaux" "M" = .outOfStock := by
  constructor
  · exact ((addToCart_stock_rules [] sampleProduct "Preto" "M").2.1 (by decide)).2 (by decide)
  · exact (addToCart_stock_rules [sampleLine] emptyVariantProduct "Bordeaux" "M").2.2 (by decide)

/-! ## Stock Ledger decrement (checkout stock-update loop, App.tsx 382–402) -/

/-- The per-variant decrement of the checkout loop:
`Math.max(0, s.quantity - item.quantity)`. -/
def decrementQty (q : ℤ) (a : ℕ) : ℤ := max 0 (q - a)

/-- `product.stock.map(s => s.color === item.selectedColor && s.size ===
item.selectedSize ? { ...s, quantity: Math.max(0, …) } : s)`. -/
def decrementStockList (item : CartItem) (st : List StockVariant) : List StockVariant :=
  st.map fun s =>
    if s.color == item.selectedColor && s.size == item.selectedSize then
      { s with quantity := decrementQty s.quantity item.quantity }
    else s

/-- One iteration of the checkout stock-update loop. `products0` is the
component-scope `products` the loop reads (the pre-checkout snapshot — the
`find` and the stock it maps over never see earlier iterations), while `cur`
is the state the functional `setProducts` updater threads through. -/
def stockStep (products0 : List Product) (cur : List Product) (item : CartItem) :
    List Product :=
  match products0.find? (fun p => p.id == item.id) with
  | none => cur
  | some product =>
    match product.stock with
    | none => cur
    | some st =>
      let newStock := decrementStockList item st
      cur.map fun p => if p.id == item.id then { p with stock := some newStock } else p

/-- The whole `for (const item of cart)` loop of `handleCheckoutSubmit`. -/
def updateStockLoop (products : List Product) (cart : List CartItem) : List Product :=
  cart.foldl (stockStep products) products

/-- C4: for a variant quantity `q ≥ 0` and any decrement amount (a cart
quantity, hence ≥ 0), the checkout decrement yields `max(0, q − a)`: it never
goes negative, subtracts exactly when covered, and silently floors to 0
otherwise — and it is a total function, so it never errors. -/
theorem decrement_clamps_at_zero (q : ℤ) (a : ℕ) (_hq : 0 ≤ q) :
    decrementQty q a = max 0 (q - a)
    ∧ 0 ≤ decrementQty q a
    ∧ ((a : ℤ) ≤ q → decrementQty q a = q - a)
    ∧ (q ≤ (a : ℤ) → decrementQty q a = 0) := by
  refine ⟨rfl, le_max_left _ _, fun h => ?_, fun h => ?_⟩
  · simp only [decrementQty]; omega
  · simp only [decrementQty]; omega

/-- Closed witness for C4: decrementing a 3-unit variant by 5 floors at 0,
and by 2 lands at 1. -/
theorem decrement_clamps_at_zero_witness :
    decrementQty 3 5 = 0 ∧ decrementQty 3 2 = 1 := by
  refine ⟨((decrement_clamps_at_zero 3 5 (by decide)).2.2.2 (by decide)), ?_⟩
  have h := (decrement_clamps_at_zero 3 2 (by decide)).2.2.1 (by decide)
  rw [h]; decide

/-! ## Stock Ledger reconciliation (`handleSaveProduct`, App.tsx 524–539) -/

/-- The filter the save path applies first:
`finalStock.filter(s => colors.includes(s.color) && sizes.includes(s.size))`. -/
def keepVariant (colors sizes : List String) (s : StockVariant) : Bool :=
  colors.contains s.color && sizes.contains s.size

/-- The (color, size) pairs the two nested `for` loops enumerate, in loop
order. -/
def colorSizePairs (colors sizes : List String) : List (String × String) :=
  colors.flatMap fun c => sizes.map fun s => (c, s)

/-- `finalStock.find(item => item.color === c && item.size === s)` turned into
a Boolean presence test. -/
def hasPair (st : List StockVariant) (c s : String) : Bool :=
  st.any fun v => v.color == c && v.size == s

/-- The push loop: for each enumerated pair not present in the growing list,
append a zero-quantity variant. -/
def addMissing (st : List StockVariant) : List (String × String) → List StockVariant
  | [] => st
  | (c, s) :: rest =>
    if hasPair st c s then addMissing st rest
    else addMissing (st ++ [{ color := c, size := s, quantity := 0 }]) rest

/-- The complete stock reconciliation of `handleSaveProduct` (App.tsx 529–539):
drop deselected variants, then append zero-quantity variants for the missing
selected pairs. -/
def reconcileVariants (stock : List StockVariant) (colors sizes : List String) :
    List StockVariant :=
  addMissing (stock.filter (keepVariant colors sizes)) (colorSizePairs colors sizes)

/-- `addMissing` only ever appends: the result is the input followed by
zero-quantity variants for enumerated pairs that were absent. -/
theorem addMissing_extras (pairs : List (String × String)) :
    ∀ st, ∃ extras, addMissing st pairs = st ++ extras
      ∧ ∀ v ∈ extras, v.quantity = 0 ∧ (v.color, v.size) ∈ pairs
          ∧ hasPair st v.color v.size = false := by
  induction pairs with
  | nil => exact fun st => ⟨[], by simp [addMissing]⟩
  | cons p rest ih =>
    intro st
    obtain ⟨c, s⟩ := p
    by_cases hp : hasPair st c s
    · obtain ⟨extras, heq, hprops⟩ := ih st
      refine ⟨extras, by simp [addMissing, hp, heq], fun v hv => ?_⟩
      obtain ⟨h0, hmem, habs⟩ := hprops v hv
      exact ⟨h0, List.mem_cons_of_mem _ hmem, habs⟩
    · obtain ⟨extras, heq, hprops⟩ := ih (st ++ [{ color := c, size := s, quantity := 0 }])
      refine ⟨{ color := c, size := s, quantity := 0 } :: extras, ?_, ?_⟩
      · simp [addMissing, hp, heq]
      · intro v hv
        rcases List.mem_cons.mp hv with rfl | hv
        · exact ⟨rfl, List.mem_cons_self _ _, Bool.eq_false_iff.mpr hp⟩
        · obtain ⟨h0, hmem, habs⟩ := hprops v hv
          refine ⟨h0, List.mem_cons_of_mem _ hmem, ?_⟩
          simp only [hasPair, List.any_append, Bool.or_eq_false_iff] at habs
          exact habs.1

/-- After `addMissing`, every enumerated pair (and every pair already present)
is present. -/
theorem addMissing_covers (pairs : List (String × String)) :
    ∀ st c s, ((c, s) ∈ pairs ∨ hasPair st c s = true) →
      hasPair (addMissing st pairs) c s = true := by
  induction pairs with
  | nil =>
    intro st c s h
    rcases h with h | h
    · simp at h
    · simpa [addMissing] using h
  | cons p rest ih =>
    intro st c s h
    obtain ⟨c0, s0⟩ := p
    by_cases hp : hasPair st c0 s0
    · simp only [addMissing, if_pos hp]
      rcases h with h | h
      · rcases List.mem_cons.mp h with heq | hmem
        · obtain ⟨rfl, rfl⟩ := Prod.mk.injEq .. ▸ Prod.ext_iff.mp heq
          exact ih st c s (Or.inr hp)
        · exact ih st c s (Or.inl hmem)
      · exact ih st c s (Or.inr h)
    · simp only [addMissing, if_neg hp]
      have hmono : hasPair st c s = true →
          hasPair (st ++ [{ color := c0, size := s0, quantity := 0 }]) c s = true := by
        intro hh
        simp only [hasPair, List.any_append, Bool.or_eq_true]
        exact Or.inl hh
      rcases h with h | h
      · rcases List.mem_cons.mp h with heq | hmem
        · obtain ⟨rfl, rfl⟩ := Prod.mk.injEq .. ▸ Prod.ext_iff.mp heq
          refine ih _ c s (Or.inr ?_)
          simp [hasPair]
        · exact ih _ c s (Or.inl hmem)
      · exact ih _ c s (Or.inr (hmono h))

/-- `addMissing` is the identity when every enumerated pair is already
present. -/
theorem addMissing_noop (pairs : List (String × String)) :
    ∀ st, (∀ p ∈ pairs, hasPair st p.1 p.2 = true) → addMissing st pairs = st := by
  induction pairs with
  | nil => intro st _; rfl
  | cons p rest ih =>
    intro st hall
    obtain ⟨c, s⟩ := p
    have hp : hasPair st c s = true := hall (c, s) (List.mem_cons_self _ _)
    simp only [addMissing, if_pos hp]
    exact ih st fun q hq => hall q (List.mem_cons_of_mem _ hq)

/-- Membership in the enumerated pair list is componentwise membership. -/
theorem mem_colorSizePairs (colors sizes : List String) (c s : String) :
    (c, s) ∈ colorSizePairs colors sizes ↔ c ∈ colors ∧ s ∈ sizes := by
  simp [colorSizePairs]

/-- Every variant produced by `reconcileVariants` carries a selected color and
size. -/
theorem reconcileVariants_all_kept (st : List StockVariant) (cs ss : List String) :
    ∀ v ∈ reconcileVariants st cs ss, keepVariant cs ss v = true := by
  intro v hv
  obtain ⟨extras, heq, hprops⟩ := addMissing_extras (colorSizePairs cs ss)
    (st.filter (keepVariant cs ss))
  rw [reconcileVariants, heq] at hv
  rcases List.mem_append.mp hv with hv | hv
  · exact List.of_mem_filter hv
  · obtain ⟨_, hmem, _⟩ := hprops v hv
    obtain ⟨hc, hs⟩ := (mem_colorSizePairs cs ss v.color v.size).mp hmem
    simp [keepVariant, List.contains, List.elem_eq_mem, hc, hs]

/-- C5: `reconcileVariants` keeps exactly the variants whose color and size
are still selected (with their quantities untouched and in order), appends
only zero-quantity variants for selected pairs that were absent, covers every
selected (color, size) pair, and is idempotent. -/
theorem reconcileVariants_filter_extend_idempotent
    (st : List StockVariant) (cs ss : List String) :
    (∃ extras, reconcileVariants st cs ss = st.filter (keepVariant cs ss) ++ extras
      ∧ ∀ v ∈ extras, v.quantity = 0 ∧ v.color ∈ cs ∧ v.size ∈ ss
          ∧ hasPair (st.filter (keepVariant cs ss)) v.color v.size = false)
    ∧ (∀ c ∈ cs, ∀ s ∈ ss, hasPair (reconcileVariants st cs ss) c s = true)
    ∧ reconcileVariants (reconcileVariants st cs ss) cs ss = reconcileVariants st cs ss := by
  refine ⟨?_, ?_, ?_⟩
  · obtain ⟨extras, heq, hprops⟩ := addMissing_extras (colorSizePairs cs ss)
      (st.filter (keepVariant cs ss))
    refine ⟨extras, heq, fun v hv => ?_⟩
    obtain ⟨h0, hmem, habs⟩ := hprops v hv
    obtain ⟨hc, hs⟩ := (mem_colorSizePairs cs ss v.color v.size).mp hmem
    exact ⟨h0, hc, hs, habs⟩
  · intro c hc s hs
    exact addMissing_covers (colorSizePairs cs ss) _ c s
      (Or.inl ((mem_colorSizePairs cs ss c s).mpr ⟨hc, hs⟩))
  · have hfix : (reconcileVariants st cs ss).filter (keepVariant cs ss) =
        reconcileVariants st cs ss :=
      List.filter_eq_self.mpr (reconcileVariants_all_kept st cs ss)
    show addMissing ((reconcileVariants st cs ss).filter (keepVariant cs ss))
        (colorSizePairs cs ss) = reconcileVariants st cs ss
    rw [hfix]
    refine addMissing_noop (colorSizePairs cs ss) _ fun p hp => ?_
    exact addMissing_covers (colorSizePairs cs ss) _ p.1 p.2
      (Or.inl (by simpa using hp))

/-! ## Product save (`handleSaveProduct`, App.tsx 517–576) -/

/-- `Category` of `src/types.ts`. -/
structure Category where
  id : String
  label : String
deriving DecidableEq, Repr

/-- The operator's edit buffer, `Partial<Product>`: every field may be
absent at runtime. -/
structure EditingProduct where
  id : Option ℕ
  name : Option String
  price : Option ℚ
  promoPrice : Option ℚ
  category : Option String
  colors : Option (List String)
  sizes : Option (List String)
  stock : Option (List StockVariant)
  icon : Option String
  image : Option String
  description : Option String
  visible : Option Bool
  isPromotion : Option Bool
  isMulticolor : Option Bool
deriving DecidableEq, Repr

/-- JS falsiness of an optional string: `undefined` and `""` are falsy. -/
def jsStrFalsy : Option String → Bool
  | none => true
  | some s => s == ""

/-- `a || b` on an optional string (the empty string falls through, as in JS). -/
def jsOrStr (a : Option String) (b : String) : String :=
  match a with
  | some s => if s == "" then b else s
  | none => b

/-- `editingProduct.id || tempId` (a 0 id is falsy in JS and falls through). -/
def jsOrId (a : Option ℕ) (tempId : ℕ) : ℕ :=
  match a with
  | some n => if n == 0 then tempId else n
  | none => tempId

/-- `Number(x) || 0` on an optional numeric field (`undefined` gives NaN,
which is falsy; 0 maps to 0 either way). -/
def jsNumOrZero (a : Option ℚ) : ℚ := a.getD 0

/-- The pure core of `handleSaveProduct` (App.tsx 517–561): the early return
on a missing/empty name, the category fallback chain, the default sizes for a
*missing* sizes field (`editingProduct.sizes || ['P','M','G']` — an explicitly
empty array is truthy in JS and is kept as-is), the stock reconciliation, and
the assembled `newProductState`. Missing plain-string fields that the source
leaves `undefined` under its `as Product` cast are embedded as `""`. -/
def handleSaveProduct (categories : List Category) (tempId : ℕ) (ep : EditingProduct) :
    Option Product :=
  if jsStrFalsy ep.name then none
  else
    let defaultCategory := (categories.find? fun c => !(c.id == "all")).map Category.id
    let finalCategory := jsOrStr ep.category (jsOrStr defaultCategory "geral")
    let colors := ep.colors.getD []
    let sizes := ep.sizes.getD ["P", "M", "G"]
    let finalStock := reconcileVariants (ep.stock.getD []) colors sizes
    some
      { id := jsOrId ep.id tempId
        name := ep.name.getD ""
        price := jsNumOrZero ep.price
        promoPrice := jsNumOrZero ep.promoPrice
        category := finalCategory
        colors := colors
        sizes := sizes
        stock := some finalStock
        icon := ep.icon.getD ""
        image := ep.image
        description := ep.description.getD ""
        visible := ep.visible.getD true
        isPromotion := ep.isPromotion.getD false
        isMulticolor := ep.isMulticolor.getD false }

/-- An edit buffer with an explicitly empty sizes list and one Preto/M
variant: the counterexample input for C10. -/
def emptySizesEdit : EditingProduct :=
  { id := none, name := some "X", price := none, promoPrice := none
    category := none, colors := some ["Preto"], sizes := some []
    stock := some [{ color := "Preto", size := "M", quantity := 3 }]
    icon := none, image := none, description := none
    visible := none, isPromotion := none, isMulticolor := none }

/-- C10 counterexample: saving a product whose sizes list is explicitly empty
does NOT substitute the default sizes P, M, G — the saved product keeps the
empty sizes list and ends with colors but no stock variant at all. -/
theorem save_empty_sizes_not_defaulted :
    ∃ p, handleSaveProduct [] 99 emptySizesEdit = some p
      ∧ p.sizes = [] ∧ p.colors = ["Preto"] ∧ p.stock = some [] := by
  refine ⟨_, rfl, ?_, ?_, ?_⟩ <;> rfl

/-- C10 (amended): saving a product whose sizes field is *missing* substitutes
the default sizes P, M, G before reconciliation, so the saved product carries
a stock variant for every (selected color, default size) pair — the pairs not
already present are appended with quantity 0. -/
theorem save_missing_sizes_defaults (categories : List Category) (tempId : ℕ)
    (ep : EditingProduct) (hname : jsStrFalsy ep.name = false) (hsizes : ep.sizes = none) :
    ∃ p, handleSaveProduct categories tempId ep = some p
      ∧ p.sizes = ["P", "M", "G"]
      ∧ p.stock = some (reconcileVariants (ep.stock.getD []) (ep.colors.getD [])
          ["P", "M", "G"])
      ∧ (∀ c ∈ ep.colors.getD [], ∀ sz ∈ (["P", "M", "G"] : List String),
          hasPair (reconcileVariants (ep.stock.getD []) (ep.colors.getD []) ["P", "M", "G"])
            c sz = true)
      ∧ ∃ extras,
          reconcileVariants (ep.stock.getD []) (ep.colors.getD []) ["P", "M", "G"] =
            (ep.stock.getD []).filter (keepVariant (ep.colors.getD []) ["P", "M", "G"])
              ++ extras
          ∧ ∀ v ∈ extras, v.quantity = 0 := by
  simp only [handleSaveProduct, hname, Bool.false_eq_true, if_false, hsizes,
    Option.getD_none, Option.some.injEq]
  refine ⟨_, rfl, rfl, rfl, fun c hc sz hsz => ?_, ?_⟩
  · exact addMissing_covers _ _ c sz
      (Or.inl ((mem_colorSizePairs _ _ c sz).mpr ⟨hc, hsz⟩))
  · obtain ⟨extras, heq, hprops⟩ := addMissing_extras
      (colorSizePairs (ep.colors.getD []) ["P", "M", "G"])
      ((ep.stock.getD []).filter (keepVariant (ep.colors.getD []) ["P", "M", "G"]))
    exact ⟨extras, heq, fun v hv => (hprops v hv).1⟩

/-- Closed witness for the amended C10: the same edit buffer with the sizes
field missing does get the defaults, covering (Preto, P), (Preto, M),
(Preto, G). -/
theorem save_missing_sizes_defaults_witness :
    ∃ p, handleSaveProduct [] 99 { emptySizesEdit with sizes := none } = some p
      ∧ p.sizes = ["P", "M", "G"]
      ∧ p.stock = some (reconcileVariants [{ color := "Preto", size := "M", quantity := 3 }]
          ["Preto"] ["P", "M", "G"]) := by
  obtain ⟨p, hsave, hsz, hst, -⟩ :=
    save_missing_sizes_defaults [] 99 { emptySizesEdit with sizes := none } rfl rfl
  exact ⟨p, hsave, hsz, hst⟩

/-! ## Checkout orchestrator (`handleCheckoutSubmit`, App.tsx 339–411, and the
checkout modal's Voltar / Cancelar buttons, App.tsx 1041 and 1102–1111) -/

/-- Two-digit rendering of a cents remainder. -/
def pad2 (n : ℕ) : String := if n < 10 then "0" ++ toString n else toString n

/-- `total.toFixed(2).replace('.', ',')`: round to cents (ties towards the
larger value, as `toFixed` specifies) and print with a decimal comma. -/
def formatBRL (q : ℚ) : String :=
  let n : ℤ := ⌊q * 100 + 1 / 2⌋
  (if n < 0 then "-" else "") ++ toString (n.natAbs / 100) ++ "," ++ pad2 (n.natAbs % 100)

/-- The WhatsApp order summary built on the final checkout step
(App.tsx 370–377), line for line. -/
def buildWhatsAppMsg (cd : CheckoutData) (cart : List CartItem)
    (coupon : Option Coupon) (total : ℚ) : String :=
  let base := "*Pedido NQ Secrets*\n\n👤 *Cliente:* " ++ cd.name
    ++ "\n📍 *Endereço:* " ++ cd.address
    ++ "\n💳 *Pagamento:* " ++ cd.payment ++ "\n\n🛒 *ITENS:*"
  let withItems := cart.foldl
    (fun m i => m ++ "\n- " ++ toString i.quantity ++ "x " ++ i.name
      ++ " (" ++ i.selectedSize ++ ", " ++ i.selectedColor ++ ")") base
  let withCoupon :=
    match coupon with
    | some c => withItems ++ "\n\n🏷️ *Cupom:* " ++ c.code ++ " (-" ++ toString c.discount ++ "%)"
    | none => withItems
  withCoupon ++ "\n\n💰 *Total:* R$ " ++ formatBRL total

/-- The component state the checkout flow touches. -/
structure AppState where
  products : List Product
  cart : List CartItem
  appliedCoupon : Option Coupon
  sales : List Sale
  isCheckoutOpen : Bool
  isCartOpen : Bool
  checkoutStep : ℕ
  checkoutData : CheckoutData
deriving Repr

/-- The environment one submit call runs in: whether the order insert fails,
the refetched sales list a successful insert sees (`null` when the refetch
returns nothing), and the wall clock used for `created_at`. -/
structure CheckoutEnv where
  insertFails : Bool
  refreshedSales : Option (List Sale)
  now : Timestamp

/-- What one submit call emits outward: the WhatsApp messages opened and the
sale row offered to the order repository. -/
structure CheckoutEffects where
  notifications : List String
  insertedSale : Option Sale

/-- `handleCheckoutSubmit` (App.tsx 339–411) as a pure transition. On steps
0 and 1 it only advances the step. On the final step it always builds the
sale row and attempts to record it (a failure is only logged), always opens
WhatsApp exactly once with the formatted summary, then runs the stock loop
and clears cart, coupon, modal flags, step and form. -/
def handleCheckoutSubmit (env : CheckoutEnv) (s : AppState) : AppState × CheckoutEffects :=
  if s.checkoutStep < 2 then
    ({ s with checkoutStep := s.checkoutStep + 1 }, { notifications := [], insertedSale := none })
  else
    let saleData : Sale :=
      { customer_name := s.checkoutData.name
        customer_address := s.checkoutData.address
        payment_method := s.checkoutData.payment
        total := cartTotal s.cart s.appliedCoupon
        items := s.cart
        created_at := env.now }
    let sales1 := if env.insertFails then s.sales else env.refreshedSales.getD s.sales
    let msg := buildWhatsAppMsg s.checkoutData s.cart s.appliedCoupon
      (cartTotal s.cart s.appliedCoupon)
    let products1 := updateStockLoop s.products s.cart
    ({ products := products1
       cart := []
       appliedCoupon := none
       sales := sales1
       isCheckoutOpen := false
       isCartOpen := false
       checkoutStep := 0
       checkoutData := { name := "", address := "", payment := "" } },
     { notifications := [msg], insertedSale := some saleData })

/-- The Voltar button (App.tsx 1104): `setCheckoutStep(p => p - 1)`. -/
def goBackCheckout (s : AppState) : AppState :=
  { s with checkoutStep := s.checkoutStep - 1 }

/-- The Cancelar button and the modal backdrop (App.tsx 1041, 1106):
`setIsCheckoutOpen(false)` and nothing else. -/
def cancelCheckout (s : AppState) : AppState :=
  { s with isCheckoutOpen := false }

/-- C1: on the final forward transition, even when recording the order fails,
the WhatsApp dispatch still happens exactly once with the formatted order
summary, and afterwards the cart is empty, the coupon is cleared, the
checkout form is reset and the step returns to Identification (0) — for every
cart and every form content. -/
theorem checkout_record_failure_does_not_abort (s : AppState) (env : CheckoutEnv)
    (hstep : s.checkoutStep = 2) (_hfail : env.insertFails = true) :
    (handleCheckoutSubmit env s).2.notifications =
        [buildWhatsAppMsg s.checkoutData s.cart s.appliedCoupon
          (cartTotal s.cart s.appliedCoupon)]
    ∧ (handleCheckoutSubmit env s).1.cart = []
    ∧ (handleCheckoutSubmit env s).1.appliedCoupon = none
    ∧ (handleCheckoutSubmit env s).1.checkoutData = { name := "", address := "", payment := "" }
    ∧ (handleCheckoutSubmit env s).1.checkoutStep = 0 := by
  simp [handleCheckoutSubmit, hstep]

/-- A concrete mid-checkout state on the payment step, used by the C1 and C8
witnesses and the C8 counterexample. -/
def paymentStepState : AppState :=
  { products := [sampleProduct]
    cart := [sampleLine]
    appliedCoupon := some { code := "BELLE10", discount := 10 }
    sales := []
    isCheckoutOpen := true
    isCartOpen := true
    checkoutStep := 2
    checkoutData := { name := "Ana", address := "Rua 1", payment := "Pix" } }

/-- An environment in which the order insert fails. -/
def failingInsertEnv : CheckoutEnv :=
  { insertFails := true, refreshedSales := none
    now := { day := { year := 2024, month := 3, day := 15 }, msOfDay := 0 } }

/-- Closed witness for C1 at a concrete cart, coupon and filled form. -/
theorem checkout_record_failure_does_not_abort_witness :
    (handleCheckoutSubmit failingInsertEnv paymentStepState).2.notifications =
        [buildWhatsAppMsg paymentStepState.checkoutData paymentStepState.cart
          paymentStepState.appliedCoupon
          (cartTotal paymentStepState.cart paymentStepState.appliedCoupon)]
    ∧ (handleCheckoutSubmit failingInsertEnv paymentStepState).1.cart = []
    ∧ (handleCheckoutSubmit failingInsertEnv paymentStepState).1.appliedCoupon = none
    ∧ (handleCheckoutSubmit failingInsertEnv paymentStepState).1.checkoutData =
        { name := "", address := "", payment := "" }
    ∧ (handleCheckoutSubmit failingInsertEnv paymentStepState).1.checkoutStep = 0 :=
  checkout_record_failure_does_not_abort paymentStepState failingInsertEnv rfl rfl

/-- C8 counterexample: cancelling from a state with entered customer data does
NOT discard the transient checkout form — the entered name, address, payment
and the current step all survive; only the modal-open flag changes. -/
theorem cancel_keeps_entered_form :
    (cancelCheckout paymentStepState).checkoutData =
        { name := "Ana", address := "Rua 1", payment := "Pix" }
    ∧ (cancelCheckout paymentStepState).checkoutData ≠ { name := "", address := "", payment := "" }
    ∧ (cancelCheckout paymentStepState).checkoutStep = 2 := by
  exact ⟨rfl, by decide, rfl⟩

/-- C8 (amended): a backward transition decrements the step by one and leaves
the entered form data, cart and coupon alone; the cancel action only closes
the checkout modal — the cart, the applied coupon, and also the entered form
data and current step all survive it. -/
theorem checkout_back_and_cancel_frame (s : AppState) (_hstep : 0 < s.checkoutStep) :
    ((goBackCheckout s).checkoutStep = s.checkoutStep - 1
      ∧ (goBackCheckout s).checkoutData = s.checkoutData
      ∧ (goBackCheckout s).cart = s.cart
      ∧ (goBackCheckout s).appliedCoupon = s.appliedCoupon)
    ∧ ((cancelCheckout s).cart = s.cart
      ∧ (cancelCheckout s).appliedCoupon = s.appliedCoupon
      ∧ (cancelCheckout s).checkoutData = s.checkoutData
      ∧ (cancelCheckout s).checkoutStep = s.checkoutStep
      ∧ (cancelCheckout s).isCheckoutOpen = false) := by
  exact ⟨⟨rfl, rfl, rfl, rfl⟩, ⟨rfl, rfl, rfl, rfl, rfl⟩⟩

/-- Closed witness for the amended C8 at the concrete payment-step state. -/
theorem checkout_back_and_cancel_frame_witness :
    (goBackCheckout paymentStepState).checkoutStep = 1
    ∧ (cancelCheckout paymentStepState).cart = paymentStepState.cart
    ∧ (cancelCheckout paymentStepState).appliedCoupon = paymentStepState.appliedCoupon := by
  obtain ⟨⟨h1, -, -, -⟩, ⟨h2, h3, -, -, -⟩⟩ :=
    checkout_back_and_cancel_frame paymentStepState (by decide)
  exact ⟨h1, h2, h3⟩

/-! ## Frame of the checkout stock-update loop (App.tsx 382–402, claim C9)

The loop's `products.find(...)` reads the component-scope snapshot, not the
threaded state, so a later cart line on the same product rewrites that
product's whole stock from the snapshot — reverting an earlier line's
decrement. The per-line "only its own variant changes" frame therefore fails
(counterexample below); what does hold is the snapshot-relative frame
`ProductFrame` proved after it. -/

/-- The (productId, color, size) selection of a cart line. -/
def lineKey (i : CartItem) : ℕ × String × String := (i.id, i.selectedColor, i.selectedSize)

/-- Variant-level frame: color and size survive, and the quantity may move
only when the variant is selected by one of `keys`. -/
def VariantFrame (pid : ℕ) (keys : List (ℕ × String × String))
    (v w : StockVariant) : Prop :=
  w.color = v.color ∧ w.size = v.size ∧ ((pid, v.color, v.size) ∈ keys ∨ w = v)

/-- Stock-field frame: shape preserved, variants related pointwise. -/
def StockFrame (pid : ℕ) (keys : List (ℕ × String × String)) :
    Option (List StockVariant) → Option (List StockVariant) → Prop
  | none, none => True
  | some st, some st' => List.Forall₂ (VariantFrame pid keys) st st'
  | _, _ => False

/-- Product-level frame relative to the pre-checkout snapshot: every field
but `stock` is untouched, and the stock respects `StockFrame`. -/
def ProductFrame (keys : List (ℕ × String × String)) (p q : Product) : Prop :=
  q = { p with stock := q.stock } ∧ StockFrame p.id keys p.stock q.stock

/-- `ProductFrame` is reflexive. -/
theorem productFrame_refl (keys : List (ℕ × String × String)) (p : Product) :
    ProductFrame keys p p := by
  refine ⟨rfl, ?_⟩
  cases h : p.stock with
  | none => trivial
  | some st =>
    exact List.forall₂_same.mpr fun v _ => ⟨rfl, rfl, Or.inr rfl⟩

/-- Pointwise strengthening of `Forall₂` under a map, remembering membership
on the left. -/
theorem forall₂_map_of_mem {α β : Type} {R S : α → β → Prop} {f : β → β}
    {l₁ : List α} {l₂ : List β} (h : List.Forall₂ R l₁ l₂)
    (hstep : ∀ a b, a ∈ l₁ → R a b → S a (f b)) :
    List.Forall₂ S l₁ (l₂.map f) := by
  induction h with
  | nil => exact List.Forall₂.nil
  | cons hR _ ih =>
    refine List.Forall₂.cons (hstep _ _ (List.mem_cons_self _ _) hR) (ih ?_)
    exact fun a b ha hab => hstep a b (List.mem_cons_of_mem _ ha) hab

/-- With pairwise-distinct ids, `find?` by id is the only member with that
id. -/
theorem find_by_id_unique (products : List Product) (pid : ℕ)
    (hids : products.Pairwise fun p q => p.id ≠ q.id) (prod : Product)
    (hfind : products.find? (fun p => p.id == pid) = some prod) :
    ∀ p ∈ products, p.id = pid → p = prod := by
  intro p hp hpid
  have hprodMem : prod ∈ products := List.mem_of_find?_eq_some hfind
  have hprodId : prod.id = pid := by
    have := List.find?_some hfind
    simpa using this
  by_contra hne
  exact absurd (hpid.trans hprodId.symm)
    (hids.forall (fun _ _ h => Ne.symm h) hp hprodMem hne)

/-- One loop iteration preserves the snapshot-relative frame. -/
theorem stockStep_frame (products : List Product)
    (keys : List (ℕ × String × String))
    (hids : products.Pairwise fun p q => p.id ≠ q.id)
    (cur : List Product) (item : CartItem) (hkey : lineKey item ∈ keys)
    (hcur : List.Forall₂ (ProductFrame keys) products cur) :
    List.Forall₂ (ProductFrame keys) products (stockStep products cur item) := by
  cases hfind : products.find? (fun p => p.id == item.id) with
  | none => simpa [stockStep, hfind] using hcur
  | some prod =>
    cases hstock : prod.stock with
    | none => simpa [stockStep, hfind, hstock] using hcur
    | some st0 =>
      have hstep : stockStep products cur item =
          cur.map (fun p => if p.id == item.id then
            { p with stock := some (decrementStockList item st0) } else p) := by
        simp [stockStep, hfind, hstock]
      rw [hstep]
      refine forall₂_map_of_mem hcur ?_
      intro p q hp hR
      by_cases hq : q.id == item.id
      · have hqid : q.id = item.id := by simpa using hq
        have hpq : q = { p with stock := q.stock } := hR.1
        have hpid : p.id = item.id := by
          have : q.id = p.id := by rw [hpq]
          omega
        obtain rfl : p = prod := find_by_id_unique products item.id hids prod hfind p hp hpid
        simp only [hq, if_true]
        constructor
        · rw [hpq]
        · rw [hstock]
          show List.Forall₂ (VariantFrame p.id keys) st0 (decrementStockList item st0)
          unfold decrementStockList
          rw [List.forall₂_map_right_iff]
          refine List.forall₂_same.mpr fun v _ => ?_
          by_cases hv : v.color == item.selectedColor && v.size == item.selectedSize
          · have hc : v.color = item.selectedColor := by
              have := hv
              simp only [Bool.and_eq_true, beq_iff_eq] at this
              exact this.1
            have hs : v.size = item.selectedSize := by
              have := hv
              simp only [Bool.and_eq_true, beq_iff_eq] at this
              exact this.2
            refine ⟨by simp [hv], by simp [hv], Or.inl ?_⟩
            rw [hpid, hc, hs]
            exact hkey
          · exact ⟨by simp [hv], by simp [hv], Or.inr (by simp [hv])⟩
      · simp only [hq, if_false]
        exact hR

/-- C9 counterexample data: a product with two variants. -/
def twoVariantProduct : Product :=
  { sampleProduct with
    sizes := ["M", "G"]
    stock := some [{ color := "Preto", size := "M", quantity := 5 },
                   { color := "Preto", size := "G", quantity := 5 }] }

/-- Cart line taking one unit of (Preto, M). -/
def lineM : CartItem :=
  { toProduct := twoVariantProduct, selectedColor := "Preto", selectedSize := "M", quantity := 1 }

/-- Cart line taking one unit of (Preto, G). -/
def lineG : CartItem :=
  { toProduct := twoVariantProduct, selectedColor := "Preto", selectedSize := "G", quantity := 1 }

/-- C9 counterexample: with two cart lines on the same product, the second
line's iteration does not change "at most the single stock variant whose
(color, size) equals the line's selection": its write is computed from the
pre-checkout snapshot, so it also reverts the (Preto, M) quantity — already
decremented to 4 by the first line — back to 5, while its own selection is
(Preto, G). -/
theorem stock_loop_per_line_frame_cex :
    (stockStep [twoVariantProduct] [twoVariantProduct] lineM).map Product.stock =
        [some [{ color := "Preto", size := "M", quantity := 4 },
               { color := "Preto", size := "G", quantity := 5 }]]
    ∧ (stockStep [twoVariantProduct]
          (stockStep [twoVariantProduct] [twoVariantProduct] lineM) lineG).map Product.stock =
        [some [{ color := "Preto", size := "M", quantity := 5 },
               { color := "Preto", size := "G", quantity := 4 }]]
    ∧ lineG.selectedColor = "Preto" ∧ lineG.selectedSize = "G" := by
  refine ⟨?_, ?_, rfl, rfl⟩ <;> rfl

/-- C9 (amended): relative to the pre-checkout snapshot, the whole stock loop
changes at most the quantities of the variants selected by some cart line on
the product with the matching id: lengths, order, ids and all non-stock
fields are untouched, every variant keeps its color and size, a variant whose
(productId, color, size) is not a cart-line selection keeps its quantity, and
a product no cart line touches is unchanged outright; a cart line whose
product id is absent from the catalog, or whose product has no stock list, is
a silent no-op. -/
theorem stock_loop_snapshot_frame (products : List Product) (cart : List CartItem)
    (hids : products.Pairwise fun p q => p.id ≠ q.id) :
    List.Forall₂ (ProductFrame (cart.map lineKey)) products (updateStockLoop products cart)
    ∧ List.Forall₂ (fun p q => (∀ i ∈ cart, i.id ≠ p.id) → q = p) products
        (updateStockLoop products cart)
    ∧ (∀ cur item, products.find? (fun p => p.id == item.id) = none →
        stockStep products cur item = cur)
    ∧ (∀ cur item prod, products.find? (fun p => p.id == item.id) = some prod →
        prod.stock = none → stockStep products cur item = cur) := by
  have hloop : ∀ (suffix : List CartItem) (cur : List Product),
      (∀ i ∈ suffix, lineKey i ∈ cart.map lineKey) →
      List.Forall₂ (ProductFrame (cart.map lineKey)) products cur →
      List.Forall₂ (ProductFrame (cart.map lineKey)) products
        (suffix.foldl (stockStep products) cur) := by
    intro suffix
    induction suffix with
    | nil => exact fun cur _ hcur => hcur
    | cons i rest ih =>
      intro cur hall hcur
      exact ih _ (fun j hj => hall j (List.mem_cons_of_mem _ hj))
        (stockStep_frame products (cart.map lineKey) hids cur i
          (hall i (List.mem_cons_self _ _)) hcur)
  have hframe : List.Forall₂ (ProductFrame (cart.map lineKey)) products
      (updateStockLoop products cart) :=
    hloop cart products (fun i hi => List.mem_map_of_mem lineKey hi)
      (List.forall₂_same.mpr fun p _ => productFrame_refl _ p)
  refine ⟨hframe, ?_, ?_, ?_⟩
  · refine hframe.imp ?_
    intro p q hR hnone
    have hstock : q.stock = p.stock := by
      have h2 := hR.2
      cases hp : p.stock with
      | none =>
        cases hq : q.stock with
        | none => rfl
        | some st' => rw [hp, hq] at h2; exact h2.elim
      | some st =>
        cases hq : q.stock with
        | none => rw [hp, hq] at h2; exact h2.elim
        | some st' =>
          rw [hp, hq] at h2
          have hlist : ∀ {l₁ l₂ : List StockVariant},
              List.Forall₂ (fun v w : StockVariant => v = w) l₁ l₂ → l₁ = l₂ := by
            intro l₁ l₂ h
            induction h with
            | nil => rfl
            | cons hvw _ ih => rw [hvw, ih]
          have : st = st' := by
            refine hlist (h2.imp ?_)
            intro v w hvw
            rcases hvw.2.2 with hmem | rfl
            · exfalso
              obtain ⟨i, hi, hkey⟩ := List.mem_map.mp hmem
              have : i.id = p.id := congrArg (fun t => t.1) hkey
              exact hnone i hi this
            · rfl
          rw [this]
    have := hR.1
    rw [hstock] at this
    exact this
  · intro cur item hfind
    simp [stockStep, hfind]
  · intro cur item prod hfind hstock
    simp [stockStep, hfind, hstock]

/-- Closed witness for the amended C9 on the concrete two-line cart. -/
theorem stock_loop_snapshot_frame_witness :
    List.Forall₂ (ProductFrame ([lineM, lineG].map lineKey)) [twoVariantProduct]
      (updateStockLoop [twoVariantProduct] [lineM, lineG]) :=
  (stock_loop_snapshot_frame [twoVariantProduct] [lineM, lineG]
    (List.pairwise_singleton _ _)).1

/-! ## Sales analytics: filtering (`filteredSales`, App.tsx 239–273) -/

/-- Day-before ordering of calendar dates: what `saleDate < startDateValue`
compares once both `Date`s are zeroed to their calendar day. -/
def CalDate.lt (a b : CalDate) : Prop :=
  a.year < b.year
    ∨ (a.year = b.year ∧ (a.month < b.month ∨ (a.month = b.month ∧ a.day < b.day)))

instance (a b : CalDate) : Decidable (CalDate.lt a b) := by
  unfold CalDate.lt
  infer_instance

/-- Inclusive day ordering. -/
def CalDate.le (a b : CalDate) : Prop := CalDate.lt a b ∨ a = b

instance (a b : CalDate) : Decidable (CalDate.le a b) := by
  unfold CalDate.le
  infer_instance

/-- The two day orders are each other's strict complements. -/
theorem CalDate.not_lt_iff_le (a b : CalDate) : ¬ CalDate.lt a b ↔ CalDate.le b a := by
  obtain ⟨y1, m1, d1⟩ := a
  obtain ⟨y2, m2, d2⟩ := b
  simp only [CalDate.lt, CalDate.le, CalDate.mk.injEq]
  omega

/-- `haystack.includes(needle)` on character lists. -/
def includesAux (needle : List Char) : List Char → Bool
  | [] => needle.isEmpty
  | c :: rest => needle.isPrefixOf (c :: rest) || includesAux needle rest

/-- JS `s.includes(t)`. -/
def strIncludes (s t : String) : Bool := includesAux t.toList s.toList

/-- The per-sale filter predicate of `filteredSales` (App.tsx 240–272): the
start bound sets `dateMatch` to false when the sale's day is before it, the
end bound is consulted only while `dateMatch` still holds, and a non-empty
search term is matched lower-cased against the customer name or any item
name. -/
def saleMatchesFilter (startF endF : Option CalDate) (search : String) (sale : Sale) :
    Bool :=
  let saleDay := sale.created_at.day
  let dm1 : Bool :=
    match startF with
    | some st => decide (¬ CalDate.lt saleDay st)
    | none => true
  let dm : Bool :=
    match endF with
    | some en => dm1 && decide (¬ CalDate.lt en saleDay)
    | none => dm1
  let sm : Bool :=
    if search = "" then true
    else
      let term := search.toLower
      strIncludes sale.customer_name.toLower term
        || sale.items.any fun i => strIncludes i.name.toLower term
  dm && sm

/-- `filteredSales` (App.tsx 239–273). -/
def filteredSales (sales : List Sale) (startF endF : Option CalDate) (search : String) :
    List Sale :=
  sales.filter (saleMatchesFilter startF endF search)

/-- The claim's date condition: the sale's calendar day lies in the inclusive
[start, end] range, a missing bound being vacuously satisfied. -/
def dateInRange (d : CalDate) (startF endF : Option CalDate) : Prop :=
  (∀ st ∈ startF, CalDate.le st d) ∧ (∀ en ∈ endF, CalDate.le d en)

/-- The claim's search condition: a non-empty term must occur (case folded)
in the customer name or in some line-item name. -/
def searchMatches (search : String) (sale : Sale) : Prop :=
  search ≠ "" →
    strIncludes sale.customer_name.toLower search.toLower = true
    ∨ ∃ i ∈ sale.items, strIncludes i.name.toLower search.toLower = true

/-- The filter predicate is exactly the conjunction of the inclusive
calendar-day range and the case-folded search. -/
theorem saleMatchesFilter_iff (startF endF : Option CalDate) (search : String)
    (sale : Sale) :
    saleMatchesFilter startF endF search sale = true ↔
      dateInRange sale.created_at.day startF endF ∧ searchMatches search sale := by
  cases startF with
  | none =>
    cases endF with
    | none =>
      by_cases hs : search = "" <;>
        simp [saleMatchesFilter, dateInRange, searchMatches, hs]
    | some en =>
      by_cases hs : search = "" <;>
        simp [saleMatchesFilter, dateInRange, searchMatches, hs,
          CalDate.not_lt_iff_le, and_comm]
  | some st =>
    cases endF with
    | none =>
      by_cases hs : search = "" <;>
        simp [saleMatchesFilter, dateInRange, searchMatches, hs, CalDate.not_lt_iff_le]
    | some en =>
      by_cases hs : search = "" <;>
        simp [saleMatchesFilter, dateInRange, searchMatches, hs,
          CalDate.not_lt_iff_le, and_assoc]

/-- A sale created on 2024-03-15 (with a nonzero time of day, which the
filter ignores). -/
def marchSale : Sale :=
  { customer_name := "Ana"
    customer_address := "Rua 1"
    payment_method := "Pix"
    total := 100
    items := [sampleLine]
    created_at := { day := { year := 2024, month := 3, day := 15 }, msOfDay := 12345 } }

/-- C7: membership in `filteredSales` is exactly membership in the log plus
the inclusive calendar-day range (missing bounds vacuous) plus the
case-insensitive customer/item search; the predicate ignores the time of
day; and the concrete 2024-03-15 order passes [2024-03-01, 2024-03-31] but
fails a 2024-04-01 start bound. -/
theorem sales_filter_day_range_and_search :
    (∀ (sales : List Sale) (startF endF : Option CalDate) (search : String) (sale : Sale),
      sale ∈ filteredSales sales startF endF search ↔
        sale ∈ sales ∧ dateInRange sale.created_at.day startF endF
          ∧ searchMatches search sale)
    ∧ (∀ (startF endF : Option CalDate) (search : String) (sale : Sale),
      saleMatchesFilter startF endF search sale =
        saleMatchesFilter startF endF search
          { sale with created_at := { day := sale.created_at.day, msOfDay := 0 } })
    ∧ saleMatchesFilter (some { year := 2024, month := 3, day := 1 })
        (some { year := 2024, month := 3, day := 31 }) "" marchSale = true
    ∧ saleMatchesFilter (some { year := 2024, month := 4, day := 1 }) none "" marchSale
        = false := by
  refine ⟨fun sales startF endF search sale => ?_, fun startF endF search sale => rfl,
    by decide, by decide⟩
  rw [filteredSales, List.mem_filter, saleMatchesFilter_iff]

/-! ## Sales analytics: insights (`salesInsights`, App.tsx 276–300) -/

/-- One `productSales[item.name] = (productSales[item.name] || 0) + qty`
step. A JS object keeps string keys in insertion order: an existing key is
updated in place, a new key is appended. -/
def bumpQty (m : List (String × ℕ)) (nm : String) (q : ℕ) : List (String × ℕ) :=
  if m.any (fun e => e.1 == nm) then
    m.map (fun e => if e.1 == nm then (e.1, e.2 + q) else e)
  else m ++ [(nm, q)]

/-- The `productSales` accumulation over the filtered sales (App.tsx 282–289). -/
def productSalesMap (sales : List Sale) : List (String × ℕ) :=
  sales.foldl (fun m sale => sale.items.foldl (fun m2 i => bumpQty m2 i.name i.quantity) m) []

/-- Stable descending insertion: the new entry goes in front of the first
entry whose count it reaches, after every strictly greater (or equal,
earlier) one. -/
def insertCountDesc (x : String × ℕ) : List (String × ℕ) → List (String × ℕ)
  | [] => [x]
  | y :: ys => if y.2 ≤ x.2 then x :: y :: ys else y :: insertCountDesc x ys

/-- `Object.entries(productSales).sort((a, b) => b[1] - a[1])`: JS `sort` is
stable and a stable sort of a list under a total comparator is unique, so the
stable insertion sort realizes it. -/
def sortCountDesc : List (String × ℕ) → List (String × ℕ)
  | [] => []
  | x :: xs => insertCountDesc x (sortCountDesc xs)

/-- The record `salesInsights` returns (App.tsx 293–299). -/
structure SalesInsights where
  totalRevenue : ℚ
  totalOrders : ℕ
  averageTicket : ℚ
  bestSellingProduct : String
  bestSellingCount : ℕ
deriving Repr

/-- `salesInsights` (App.tsx 276–300) over an already-filtered sales list. -/
def salesInsights (filtered : List Sale) : SalesInsights :=
  let totalRevenue := filtered.foldl (fun acc s => acc + s.total) 0
  let totalOrders := filtered.length
  let averageTicket := if 0 < totalOrders then totalRevenue / (totalOrders : ℚ) else 0
  let productSales := productSalesMap filtered
  let bestSelling := (sortCountDesc productSales).head?
  { totalRevenue := totalRevenue
    totalOrders := totalOrders
    averageTicket := averageTicket
    bestSellingProduct :=
      match bestSelling with
      | some e => e.1
      | none => "N/A"
    bestSellingCount :=
      match bestSelling with
      | some e => e.2
      | none => 0 }

/-- The count recorded for `nm`, read back the way the source reads the
object (`productSales[item.name] || 0`). -/
def lookupQty : List (String × ℕ) → String → ℕ
  | [], _ => 0
  | e :: rest, nm => if e.1 = nm then e.2 else lookupQty rest nm

/-- The spec-side summed quantity of the line items named `nm` in one order. -/
def totalQty : List CartItem → String → ℕ
  | [], _ => 0
  | i :: rest, nm => (if i.name = nm then i.quantity else 0) + totalQty rest nm

/-- The spec-side summed quantity of `nm` across a list of orders. -/
def salesTotalQty : List Sale → String → ℕ
  | [], _ => 0
  | s :: rest, nm => totalQty s.items nm + salesTotalQty rest nm

/-- Updating an existing key in place adds to that key's recorded count. -/
theorem lookupQty_map_self (nm : String) (q : ℕ) :
    ∀ m : List (String × ℕ), m.any (fun e => e.1 == nm) = true →
      lookupQty (m.map (fun e => if e.1 == nm then (e.1, e.2 + q) else e)) nm =
        lookupQty m nm + q := by
  intro m
  induction m with
  | nil => intro h; simp at h
  | cons x rest ih =>
    intro hany
    by_cases hx : x.1 = nm
    · simp [lookupQty, hx]
    · have hrest : rest.any (fun e => e.1 == nm) = true := by
        simpa [hx] using hany
      simpa [lookupQty, hx] using ih hrest

/-- Appending a fresh key records its count, and a key absent from the list
reads as 0. -/
theorem lookupQty_append_self (nm : String) (q : ℕ) :
    ∀ m : List (String × ℕ), m.any (fun e => e.1 == nm) = false →
      lookupQty (m ++ [(nm, q)]) nm = lookupQty m nm + q ∧ lookupQty m nm = 0 := by
  intro m
  induction m with
  | nil => intro _; simp [lookupQty]
  | cons x rest ih =>
    intro hany
    have hx : ¬ x.1 = nm := by
      intro h
      simp [h] at hany
    have hrest : rest.any (fun e => e.1 == nm) = false := by
      simpa [hx] using hany
    simpa [lookupQty, hx] using ih hrest

/-- Neither update branch touches a different key. -/
theorem lookupQty_other (nm nm' : String) (q : ℕ) (hne : ¬ nm' = nm) :
    ∀ m : List (String × ℕ),
      lookupQty (m.map (fun e => if e.1 == nm then (e.1, e.2 + q) else e)) nm' =
          lookupQty m nm'
      ∧ lookupQty (m ++ [(nm, q)]) nm' = lookupQty m nm' := by
  have hne' : ¬ nm = nm' := fun h => hne h.symm
  intro m
  induction m with
  | nil => simp [lookupQty, hne']
  | cons x rest ih =>
    constructor
    · by_cases hx : x.1 = nm
      · simpa [lookupQty, hx, hne, hne'] using ih.1
      · by_cases hx' : x.1 = nm'
        · simp [lookupQty, hx, hx', hne]
        · simpa [lookupQty, hx, hx'] using ih.1
    · by_cases hx' : x.1 = nm'
      · simp [lookupQty, hx']
      · simpa [lookupQty, hx'] using ih.2

/-- `bumpQty` adds to exactly the bumped key. -/
theorem lookupQty_bump (m : List (String × ℕ)) (nm nm' : String) (q : ℕ) :
    lookupQty (bumpQty m nm q) nm' =
      lookupQty m nm' + (if nm' = nm then q else 0) := by
  by_cases hnm : nm' = nm
  · subst hnm
    cases hany : m.any (fun e => e.1 == nm') with
    | true => simpa [bumpQty, hany] using lookupQty_map_self nm' q m hany
    | false =>
      have h := lookupQty_append_self nm' q m hany
      simpa [bumpQty, hany] using h.1
  · cases hany : m.any (fun e => e.1 == nm) with
    | true => simpa [bumpQty, hany, hnm] using (lookupQty_other nm nm' q hnm m).1
    | false => simpa [bumpQty, hany, hnm] using (lookupQty_other nm nm' q hnm m).2

/-- Accumulating one order's items adds each name's summed quantity. -/
theorem lookupQty_items_foldl (nm : String) :
    ∀ (items : List CartItem) (m : List (String × ℕ)),
      lookupQty (items.foldl (fun m2 i => bumpQty m2 i.name i.quantity) m) nm =
        lookupQty m nm + totalQty items nm := by
  intro items
  induction items with
  | nil => intro m; simp [totalQty]
  | cons i rest ih =>
    intro m
    rw [List.foldl_cons, ih, lookupQty_bump, totalQty]
    by_cases h : nm = i.name
    · simp [h, eq_comm] at *
      omega
    · have h' : ¬ i.name = nm := fun hh => h hh.symm
      simp [h, h']

/-- Accumulating a list of orders adds each name's grand total. -/
theorem lookupQty_sales_foldl (nm : String) :
    ∀ (sales : List Sale) (m : List (String × ℕ)),
      lookupQty (sales.foldl
          (fun m sale => sale.items.foldl (fun m2 i => bumpQty m2 i.name i.quantity) m) m)
          nm =
        lookupQty m nm + salesTotalQty sales nm := by
  intro sales
  induction sales with
  | nil => intro m; simp [salesTotalQty]
  | cons s rest ih =>
    intro m
    rw [List.foldl_cons, ih, lookupQty_items_foldl, salesTotalQty]
    omega

/-- The accumulated object records exactly the summed quantity per name. -/
theorem lookupQty_productSalesMap (sales : List Sale) (nm : String) :
    lookupQty (productSalesMap sales) nm = salesTotalQty sales nm := by
  simpa [lookupQty] using lookupQty_sales_foldl nm sales []

/-- `bumpQty` keeps the keys pairwise distinct. -/
theorem bumpQty_keys_nodup (m : List (String × ℕ)) (nm : String) (q : ℕ)
    (h : (m.map Prod.fst).Nodup) : ((bumpQty m nm q).map Prod.fst).Nodup := by
  cases hany : m.any (fun e => e.1 == nm) with
  | true =>
    have hkeys : (bumpQty m nm q).map Prod.fst = m.map Prod.fst := by
      simp only [bumpQty, hany, if_true]
      rw [List.map_map]
      apply List.map_congr_left
      intro e _
      by_cases he : e.1 = nm <;> simp [he]
    rwa [hkeys]
  | false =>
    have hkeys : (bumpQty m nm q).map Prod.fst = m.map Prod.fst ++ [nm] := by
      simp [bumpQty, hany]
    have hnm : nm ∉ m.map Prod.fst := by
      intro hmem
      obtain ⟨e, he, heq⟩ := List.mem_map.mp hmem
      have := (List.any_eq_false.mp hany) e he
      simp [heq] at this
    rw [hkeys, List.nodup_append]
    refine ⟨h, List.nodup_singleton nm, ?_⟩
    intro a ha hb
    simp only [List.mem_singleton] at hb
    exact hnm (hb ▸ ha)

/-- The per-order accumulation keeps the keys pairwise distinct. -/
theorem items_foldl_keys_nodup :
    ∀ (items : List CartItem) (m : List (String × ℕ)), (m.map Prod.fst).Nodup →
      ((items.foldl (fun m2 i => bumpQty m2 i.name i.quantity) m).map Prod.fst).Nodup := by
  intro items
  induction items with
  | nil => exact fun m h => h
  | cons i rest ih =>
    intro m h
    exact ih _ (bumpQty_keys_nodup m i.name i.quantity h)

/-- `productSalesMap` has pairwise-distinct names. -/
theorem productSalesMap_keys_nodup (sales : List Sale) :
    ((productSalesMap sales).map Prod.fst).Nodup := by
  have : ∀ (ss : List Sale) (m : List (String × ℕ)), (m.map Prod.fst).Nodup →
      ((ss.foldl (fun m sale => sale.items.foldl
          (fun m2 i => bumpQty m2 i.name i.quantity) m) m).map Prod.fst).Nodup := by
    intro ss
    induction ss with
    | nil => exact fun m h => h
    | cons s rest ih =>
      intro m h
      exact ih _ (items_foldl_keys_nodup s.items m h)
  simpa [productSalesMap] using this sales [] (by simp)

/-- With distinct keys, every entry's recorded count is what lookup reads. -/
theorem lookupQty_of_mem :
    ∀ (m : List (String × ℕ)), (m.map Prod.fst).Nodup →
      ∀ e ∈ m, lookupQty m e.1 = e.2 := by
  intro m
  induction m with
  | nil => intro _ e he; simp at he
  | cons x rest ih =>
    intro h e he
    have hx : x.1 ∉ rest.map Prod.fst := (List.nodup_cons.mp h).1
    rcases List.mem_cons.mp he with rfl | he
    · simp [lookupQty]
    · have hne : ¬ x.1 = e.1 := by
        intro heq
        exact hx (heq ▸ List.mem_map_of_mem Prod.fst he)
      have hrest : (rest.map Prod.fst).Nodup := (List.nodup_cons.mp h).2
      simp [lookupQty, hne, ih hrest e he]

/-- Lookup never exceeds a bound satisfied by all recorded counts. -/
theorem lookupQty_le (c : ℕ) :
    ∀ (m : List (String × ℕ)), (∀ x ∈ m, x.2 ≤ c) → ∀ nm, lookupQty m nm ≤ c := by
  intro m
  induction m with
  | nil => intro _ nm; simp [lookupQty]
  | cons x rest ih =>
    intro h nm
    by_cases hx : x.1 = nm
    · simpa [lookupQty, hx] using h x (List.mem_cons_self _ _)
    · simpa [lookupQty, hx] using ih (fun y hy => h y (List.mem_cons_of_mem _ hy)) nm

/-- The head of the stable descending sort is the first entry attaining the
maximum count: everything before it in the original list is strictly
smaller, everything in the list is no larger. -/
theorem sortCountDesc_head :
    ∀ (m : List (String × ℕ)), m ≠ [] →
      ∃ e l1 l2, (sortCountDesc m).head? = some e ∧ m = l1 ++ e :: l2
        ∧ (∀ x ∈ l1, x.2 < e.2) ∧ (∀ x ∈ m, x.2 ≤ e.2) := by
  intro m
  induction m with
  | nil => intro h; exact absurd rfl h
  | cons x xs ih =>
    intro _
    by_cases hxs : xs = []
    · subst hxs
      refine ⟨x, [], [], rfl, rfl, by simp, ?_⟩
      intro z hz
      rcases List.mem_cons.mp hz with rfl | hz
      · exact le_refl _
      · simp at hz
    · obtain ⟨e', l1', l2', hhead, hdecomp, hlt, hle⟩ := ih hxs
      obtain ⟨srest, hs⟩ : ∃ srest, sortCountDesc xs = e' :: srest := by
        cases hsort : sortCountDesc xs with
        | nil => rw [hsort] at hhead; simp at hhead
        | cons a b =>
          rw [hsort] at hhead
          obtain rfl : a = e' := by simpa using hhead
          exact ⟨b, rfl⟩
      by_cases hc : e'.2 ≤ x.2
      · refine ⟨x, [], xs, ?_, rfl, by simp, ?_⟩
        · simp [sortCountDesc, hs, insertCountDesc, hc]
        · intro z hz
          rcases List.mem_cons.mp hz with rfl | hz
          · exact le_refl _
          · exact le_trans (hle z hz) hc
      · refine ⟨e', x :: l1', l2', ?_, by simp [hdecomp], ?_, ?_⟩
        · simp [sortCountDesc, hs, insertCountDesc, hc]
        · intro z hz
          rcases List.mem_cons.mp hz with rfl | hz
          · omega
          · exact hlt z hz
        · intro z hz
          rcases List.mem_cons.mp hz with rfl | hz
          · omega
          · exact hle z hz

/-- A cart line named `nm` with quantity `q`, for the best-seller example. -/
def namedLine (nm : String) (q : ℕ) : CartItem :=
  { toProduct := { sampleProduct with name := nm }
    selectedColor := "Preto", selectedSize := "M", quantity := q }

/-- The spec's best-seller example: orders A×3, B×5, A×4. -/
def exampleOrders : List Sale :=
  [ { marchSale with items := [namedLine "A" 3] },
    { marchSale with items := [namedLine "B" 5] },
    { marchSale with items := [namedLine "A" 4] } ]

/-- C6: the reported best seller is the line-item name with the highest
quantity summed across all filtered orders, ties resolved to the entry whose
name was encountered first (everything recorded before it counts strictly
less), the empty case yields the "N/A" / 0 sentinel, and on the A3/B5/A4
example the aggregator reports A with 7 units, not B. -/
theorem best_seller_highest_sum_first_tie :
    (∀ sales : List Sale, productSalesMap sales = [] →
      (salesInsights sales).bestSellingProduct = "N/A"
        ∧ (salesInsights sales).bestSellingCount = 0)
    ∧ (∀ sales : List Sale, productSalesMap sales ≠ [] →
      ∃ e l1 l2, productSalesMap sales = l1 ++ e :: l2
        ∧ (salesInsights sales).bestSellingProduct = e.1
        ∧ (salesInsights sales).bestSellingCount = e.2
        ∧ e.2 = salesTotalQty sales e.1
        ∧ (∀ nm, salesTotalQty sales nm ≤ e.2)
        ∧ (∀ x ∈ l1, x.2 < e.2))
    ∧ (salesInsights exampleOrders).bestSellingProduct = "A"
    ∧ (salesInsights exampleOrders).bestSellingCount = 7 := by
  refine ⟨fun sales h => ?_, fun sales hne => ?_, by decide, by decide⟩
  · constructor <;> simp [salesInsights, h, sortCountDesc]
  · obtain ⟨e, l1, l2, hhead, hdecomp, hlt, hle⟩ :=
      sortCountDesc_head (productSalesMap sales) hne
    have hmem : e ∈ productSalesMap sales := by
      rw [hdecomp]
      exact List.mem_append_right _ (List.mem_cons_self _ _)
    have hlook : lookupQty (productSalesMap sales) e.1 = e.2 :=
      lookupQty_of_mem _ (productSalesMap_keys_nodup sales) e hmem
    refine ⟨e, l1, l2, hdecomp, ?_, ?_, ?_, ?_, hlt⟩
    · simp [salesInsights, hhead]
    · simp [salesInsights, hhead]
    · rw [← lookupQty_productSalesMap, hlook]
    · intro nm
      rw [← lookupQty_productSalesMap]
      exact lookupQty_le e.2 _ hle nm
